import Mathlib

section Defs

variable {α : Type _}

/-!
Shallow embedding of the segment aggregation and hypothesis-testing engine of
the insurance risk analytics repository (src/results_tables.py and
src/stat_tests.py).

Conventions of the embedding:
* A pandas DataFrame row is a `Record`; a possibly-missing (NaN) cell is an
  `Option` value.  Currency amounts are rationals (the scripts only use exact
  field arithmetic on them; the numeric tower of floats is abstracted to the
  exact rationals).
* A pandas column sum (which skips NaN) is a sum over `List.filterMap`.
* External SciPy/NumPy routines (norm.sf, sqrt, mannwhitneyu, kruskal,
  chi2_contingency) are opaque collaborators: the embedding is parametric in
  them.  np.sqrt is modelled as a function into `Option` (none = NaN, the
  value np.sqrt returns on negative input).
* pandas groupby drops rows whose group key is missing; group enumeration
  order is abstracted to first-occurrence order (the library sorts keys, but
  every property proved below is insensitive to the enumeration order, and the
  emitted report is re-sorted by policy count at the end, exactly as the
  source does).
-/

/-- Record is one row of the analysed dataset after loading: the optional
unique policy identifier, the value of the categorical segmentation column
under study, and the two monetary columns.  Missing cells are none. -/
structure Record where
  policyID : Option String
  segment : Option String
  totalPremium : Option ℚ
  totalClaims : Option ℚ
  deriving DecidableEq

/-- ClaimOccurred derived column: (TotalClaims.fillna(0) > 0).astype(int),
from load_data in results_tables.py (line 26) and prepare in stat_tests.py. -/
def claimOccurred (r : Record) : ℕ :=
  if 0 < r.totalClaims.getD 0 then 1 else 0

/-- ClaimSeverity derived column: TotalClaims.where(ClaimOccurred == 1),
missing when no claim occurred (load_data line 28 / prepare line 53). -/
def claimSeverity (r : Record) : Option ℚ :=
  if claimOccurred r = 1 then r.totalClaims else none

/-- marginOf derived column: TotalPremium - TotalClaims with NaN propagation
(load_data line 27 / prepare line 54). -/
def marginOf (r : Record) : Option ℚ :=
  match r.totalPremium, r.totalClaims with
  | some p, some c => some (p - c)
  | _, _ => none

/-- two_prop_ztest from results_tables.py lines 32-42, parametric in the
external numeric collaborators: sqrtF models np.sqrt (none encodes the NaN
np.sqrt yields on negative input) and sf models stats.norm.sf, the standard
normal survival function.  The return value none encodes the (nan, nan)
inapplicable marker. -/
def two_prop_ztest (sqrtF : ℚ → Option ℚ) (sf : ℚ → ℚ)
    (k1 n1 k2 n2 : ℚ) : Option (ℚ × ℚ) :=
  let p1 : ℚ := if n1 = 0 then 0 else k1 / n1
  let p2 : ℚ := if n2 = 0 then 0 else k2 / n2
  let p_pool : ℚ := if n1 + n2 = 0 then 0 else (k1 + k2) / (n1 + n2)
  let seO : Option ℚ :=
    if n1 = 0 ∨ n2 = 0 then none
    else sqrtF (p_pool * (1 - p_pool) * (1 / n1 + 1 / n2))
  match seO with
  | none => none
  | some se =>
      if se = 0 then none
      else some ((p1 - p2) / se, 2 * sf |(p1 - p2) / se|)

/-- seSq is the argument handed to np.sqrt inside two_prop_ztest: the squared
pooled standard error p_pool * (1 - p_pool) * (1/n1 + 1/n2). -/
def seSq (k1 n1 k2 n2 : ℚ) : ℚ :=
  (if n1 + n2 = 0 then 0 else (k1 + k2) / (n1 + n2)) *
    (1 - (if n1 + n2 = 0 then 0 else (k1 + k2) / (n1 + n2))) *
    (1 / n1 + 1 / n2)

/-- pHat is the sample proportion k/n with the Python truthiness guard
(k1 / n1 if n1 else 0). -/
def pHat (k n : ℚ) : ℚ := if n = 0 then 0 else k / n

/-- insertDesc inserts an element into a list so that, on a list already in
descending key order, the result is again descending; equal keys keep the
existing elements first (stable). -/
def insertDesc (key : α → ℕ) (a : α) : List α → List α
  | [] => [a]
  | b :: l => if key b < key a then a :: b :: l else b :: insertDesc key a l

/-- sortDesc is insertion sort by a natural-number key, descending.  It models
the sort_values(ascending=False) calls of summarize_group. -/
def sortDesc (key : α → ℕ) : List α → List α
  | [] => []
  | a :: l => insertDesc key a (sortDesc key l)

/-! ## Segment Aggregator: summarize_group (results_tables.py lines 45-104) -/

/-- keys of the groupby: the distinct non-missing segment values, in order of
first occurrence (pandas drops missing keys; enumeration order abstracted). -/
def keys (df : List Record) : List String :=
  (df.filterMap Record.segment).dedup

/-- groupRecs lists the records belonging to one segment value. -/
def groupRecs (df : List Record) (g : String) : List Record :=
  df.filter (fun r => decide (r.segment = some g))

/-- policiesOf models the policies aggregate of summarize_group line 48:
nunique of PolicyID when that column exists, else the row count. -/
def policiesOf (hasPID : Bool) (recs : List Record) : ℕ :=
  if hasPID then ((recs.filterMap Record.policyID).dedup).length
  else recs.length

/-- gPremium is the group's TotalPremium sum (pandas sum skips missing). -/
def gPremium (recs : List Record) : ℚ :=
  (recs.filterMap Record.totalPremium).sum

/-- gClaims is the group's TotalClaims sum (pandas sum skips missing). -/
def gClaims (recs : List Record) : ℚ :=
  (recs.filterMap Record.totalClaims).sum

/-- gOcc is the group's ClaimOccurred sum, i.e. the number of records of the
group with a claim. -/
def gOcc (recs : List Record) : ℕ :=
  (recs.map claimOccurred).sum

/-- overallPolicies models line 54: the policies column of the grouped table
summed over all groups (computed before any top_n filtering). -/
def overallPolicies (hasPID : Bool) (df : List Record) : ℕ :=
  ((keys df).map (fun k => policiesOf hasPID (groupRecs df k))).sum

/-- overallOcc models line 55: the claims_count column summed over all
groups. -/
def overallOcc (df : List Record) : ℕ :=
  ((keys df).map (fun k => gOcc (groupRecs df k))).sum

/-- overallPremium models line 56 (computed by the source and never used). -/
def overallPremium (df : List Record) : ℚ :=
  ((keys df).map (fun k => gPremium (groupRecs df k))).sum

/-- restN models line 72: rest_n = overall_policies - n. -/
def restN (hasPID : Bool) (df : List Record) (g : String) : ℚ :=
  (overallPolicies hasPID df : ℚ) - (policiesOf hasPID (groupRecs df g) : ℚ)

/-- restK models line 73: rest_k = overall_claims - k. -/
def restK (df : List Record) (g : String) : ℚ :=
  (overallOcc df : ℚ) - (gOcc (groupRecs df g) : ℚ)

/-- sevSample models line 78: the ClaimSeverity values, missing dropped, of
the records whose segment value equals g. -/
def sevSample (df : List Record) (g : String) : List ℚ :=
  (df.filter (fun r => decide (r.segment = some g))).filterMap claimSeverity

/-- sevRest models line 79: the ClaimSeverity values, missing dropped, of the
records whose segment value is not g.  Note that pandas evaluates
NaN != g as true, so records with a missing segment value are part of this
sample. -/
def sevRest (df : List Record) (g : String) : List ℚ :=
  (df.filter (fun r => !(decide (r.segment = some g)))).filterMap claimSeverity

/-- SRow is one output row of summarize_group (lines 88-100).  The paired
z_freq and mw_sev fields encode the (nan, nan) inapplicable markers as
none. -/
structure SRow where
  segv : String
  policies : ℕ
  claims_count : ℕ
  claim_freq : Option ℚ
  total_premium : ℚ
  total_claims : ℚ
  loss_ratio : Option ℚ
  z_freq : Option (ℚ × ℚ)
  mw_sev : Option (ℚ × ℚ)
  deriving DecidableEq

/-- mkRow builds the output row for one segment value (loop body, lines
63-100).  mw models scipy.stats.mannwhitneyu (two-sided); its none result
encodes the except-branch of the try block. -/
def mkRow (sqrtF : ℚ → Option ℚ) (sf : ℚ → ℚ)
    (mw : List ℚ → List ℚ → Option (ℚ × ℚ))
    (hasPID : Bool) (df : List Record) (g : String) : SRow :=
  let recs := groupRecs df g
  let n := policiesOf hasPID recs
  let k := gOcc recs
  let tp := gPremium recs
  let tc := gClaims recs
  { segv := g
    policies := n
    claims_count := k
    claim_freq := if n = 0 then none else some ((k : ℚ) / (n : ℚ))
    total_premium := tp
    total_claims := tc
    loss_ratio := if tp = 0 then none else some (tc / tp)
    z_freq :=
      if 0 < restN hasPID df g then
        two_prop_ztest sqrtF sf (k : ℚ) (n : ℚ) (restK df g) (restN hasPID df g)
      else none
    mw_sev :=
      if 10 ≤ (sevSample df g).length ∧ 10 ≤ (sevRest df g).length then
        mw (sevSample df g) (sevRest df g)
      else none }

/-- selectKeys models the top_n filter of lines 58-60: when a nonzero cap is
given, sort the groups by descending policy count and keep the first top_n
(the Python code tests the truthiness of top_n, so None and 0 both mean no
filtering). -/
def selectKeys (hasPID : Bool) (df : List Record) (top_n : Option ℕ) :
    List String :=
  match top_n with
  | none => keys df
  | some t =>
      if t = 0 then keys df
      else (sortDesc (fun k => policiesOf hasPID (groupRecs df k)) (keys df)).take t

/-- summarize_group from results_tables.py lines 45-104: aggregate per
segment value, optionally keep the top_n groups by policy count, build one
row per kept group, and emit the rows sorted by descending policy count. -/
def summarize_group (sqrtF : ℚ → Option ℚ) (sf : ℚ → ℚ)
    (mw : List ℚ → List ℚ → Option (ℚ × ℚ))
    (hasPID : Bool) (df : List Record) (top_n : Option ℕ) : List SRow :=
  sortDesc SRow.policies
    ((selectKeys hasPID df top_n).map (mkRow sqrtF sf mw hasPID df))

/-! ## Hypothesis Test Engine: kw_test_numeric (stat_tests.py lines 65-76) -/

/-- kwSample: the non-missing values of the tested numeric column within one
segment group (g[value_col].dropna() in the loop of kw_test_numeric). -/
def kwSample (df : List Record) (val : Record → Option ℚ) (k : String) :
    List ℚ :=
  (df.filter (fun r => decide (r.segment = some k))).filterMap val

/-- kwQualifying: the (label, sample) pairs retained by kw_test_numeric,
i.e. the groups whose dropna sample has at least min_group_size values, in
group enumeration order. -/
def kwQualifying (df : List Record) (val : Record → Option ℚ)
    (minSize : ℕ) : List (String × List ℚ) :=
  (keys df).filterMap (fun k =>
    if minSize ≤ (kwSample df val k).length then some (k, kwSample df val k)
    else none)

/-- kw_test_numeric from stat_tests.py lines 65-76, parametric in the
external scipy.stats.kruskal routine.  The first component none encodes the
(None, None) return; the second component is the labels list. -/
def kw_test_numeric (kruskal : List (List ℚ) → ℚ × ℚ) (df : List Record)
    (val : Record → Option ℚ) (minSize : ℕ) :
    Option (ℚ × ℚ) × List String :=
  let q := kwQualifying df val minSize
  if q.length < 2 then (none, q.map Prod.fst)
  else (some (kruskal (q.map Prod.snd)), q.map Prod.fst)

/-! ## Hypothesis Test Engine: chi2_test_frequency (stat_tests.py lines
58-62) and the PostalCode restriction of run_tests (lines 116-122) -/

/-- ctKeys: the row labels of the contingency table built by
chi2_test_frequency, i.e. the distinct values of the segment column after
fillna with the label MISSING. -/
def ctKeys (df : List Record) : List String :=
  (df.map (fun r => (r.segment).getD ("MISSING"))).dedup

/-- contTable models pd.crosstab(df[group_col].fillna(MISSING),
df[ClaimOccurred]): for each segment label (missing coerced to MISSING) the
number of records without and with a claim.  The two count columns are the
claim-occurred values 0 and 1. -/
def contTable (df : List Record) : List (String × ℕ × ℕ) :=
  (ctKeys df).map (fun k =>
    (k,
      ((df.filter (fun r => decide ((r.segment).getD ("MISSING") = k))).filter
          (fun r => decide (claimOccurred r = 0))).length,
      ((df.filter (fun r => decide ((r.segment).getD ("MISSING") = k))).filter
          (fun r => !(decide (claimOccurred r = 0)))).length))

/-- value_counts models df[PostalCode].value_counts(): occurrence counts of
the non-missing values, most frequent first. -/
def value_counts (df : List Record) : List (String × ℕ) :=
  sortDesc Prod.snd
    (((df.filterMap Record.segment).dedup).map (fun k =>
      (k, (df.filter (fun r => decide (r.segment = some k))).length)))

/-- topZips models run_tests line 118: the ten most frequent postal codes. -/
def topZips (df : List Record) : List String :=
  ((value_counts df).take 10).map Prod.fst

/-- postalSubset models run_tests line 119: the records whose postal code is
one of the top ten (isin is false on missing values, so records with a
missing postal code are dropped here). -/
def postalSubset (df : List Record) : List Record :=
  df.filter (fun r =>
    match r.segment with
    | some v => decide (v ∈ topZips df)
    | none => false)

/-! ## Metric Normalizer: prepare (stat_tests.py lines 46-55), modelled with
the caller's object state made explicit -/

/-- Frame is a pandas DataFrame as prepare sees it: each column is either
absent (none) or a list of cells; nrows is the row count used when a scalar
is broadcast to a whole column. -/
structure Frame where
  nrows : ℕ
  totalPremium : Option (List (Option ℚ))
  totalClaims : Option (List (Option ℚ))
  customValue : Option (List (Option ℚ))
  claimOccurred : Option (List ℚ)
  claimSeverity : Option (List (Option ℚ))
  margin : Option (List (Option ℚ))
  deriving DecidableEq

/-- prepare from stat_tests.py lines 46-55.  Column assignments on a pandas
DataFrame mutate it in place, so the embedding returns the caller's object
state next to the returned value: the ok case carries (state of the caller's
frame after the call, returned frame).  The error case models the KeyError
that line 53 raises when TotalClaims is absent (the subscript
df[TotalClaims] is unguarded there) and carries the caller's partially
mutated frame.  coe models the pd.to_numeric cleanup applied cell-wise to
each numeric column. -/
def prepare (coe : Option ℚ → Option ℚ) (df0 : Frame) :
    Except Frame (Frame × Frame) :=
  let df1 : Frame :=
    { df0 with
      totalPremium := df0.totalPremium.map (List.map coe)
      totalClaims := df0.totalClaims.map (List.map coe)
      customValue := df0.customValue.map (List.map coe) }
  let df2 : Frame :=
    { df1 with
      claimOccurred := some
        (match df1.totalClaims with
         | some col => col.map (fun c => if 0 < c.getD 0 then 1 else 0)
         | none => List.replicate df1.nrows 0) }
  match df2.totalClaims with
  | none => Except.error df2
  | some tc =>
      let occ := df2.claimOccurred.getD []
      let df3 : Frame :=
        { df2 with
          claimSeverity := some
            (List.zipWith (fun c o => if o = (1 : ℚ) then c else none) tc occ) }
      let df4 : Frame :=
        { df3 with
          margin := some
            (match df3.totalPremium, df3.totalClaims with
             | some tp, some tcl =>
                 List.zipWith (fun a b =>
                   match a, b with
                   | some x, some y => some (x - y)
                   | _, _ => none) tp tcl
             | _, _ => List.replicate df3.nrows none) }
      Except.ok (df4, df4)

/-- callerFrameAfter extracts the state of the caller-owned frame once
prepare has run (both on normal return and on the KeyError path). -/
def callerFrameAfter : Except Frame (Frame × Frame) → Frame
  | Except.error f => f
  | Except.ok p => p.1

/-! ## Dataset-wide sums used by the conservation properties -/

/-- dfPremiumSum is the TotalPremium sum over every record (pandas sum skips
missing values). -/
def dfPremiumSum (df : List Record) : ℚ :=
  (df.filterMap Record.totalPremium).sum

/-- dfClaimsSum is the TotalClaims sum over every record. -/
def dfClaimsSum (df : List Record) : ℚ :=
  (df.filterMap Record.totalClaims).sum

/-- dfOccSum is the ClaimOccurred sum over every record. -/
def dfOccSum (df : List Record) : ℕ :=
  (df.map claimOccurred).sum

/-- missingRecs lists the records whose segment value is missing (these are
dropped from the groupby). -/
def missingRecs (df : List Record) : List Record :=
  df.filter (fun r => decide (r.segment = none))

/-! ## Trivial instantiations of the external collaborators, used by the
concrete evaluations below -/

/-- sq0 is a degenerate stand-in for np.sqrt (always NaN); properties that
hold for every sqrt function can be evaluated with it. -/
def sq0 : ℚ → Option ℚ := fun _ => none

/-- sf0 is a degenerate stand-in for the normal survival function. -/
def sf0 : ℚ → ℚ := fun q => q

/-- mw0 is a degenerate stand-in for scipy.stats.mannwhitneyu. -/
def mw0 : List ℚ → List ℚ → Option (ℚ × ℚ) := fun _ _ => none

/-- sqrtQ is a concrete function satisfying the contract the applicability
theorem assumes of np.sqrt: NaN (none) exactly on negative input and zero
exactly on zero. -/
def sqrtQ : ℚ → Option ℚ := fun x => if x < 0 then none else some x

/-- df1c: two groups with distinct premiums and no missing segment value. -/
def df1c : List Record :=
  [⟨none, some ("A"), some 1, none⟩, ⟨none, some ("B"), some 2, none⟩]

/-- df2c: one policy with two transactions, both carrying a claim. -/
def df2c : List Record :=
  [⟨some ("P"), some ("A"), some 1, some 5⟩,
   ⟨some ("P"), some ("A"), some 1, some 5⟩]

/-- dfW: a single record with a claim, used as the concrete input of several
witnesses. -/
def dfW : List Record := [⟨none, some ("A"), some 2, some 1⟩]

/-- df9: two segment groups plus a record with a missing segment value that
carries a claim. -/
def df9 : List Record :=
  [⟨none, some ("A"), none, some 5⟩,
   ⟨none, some ("B"), none, none⟩,
   ⟨none, none, none, some 7⟩]

/-- df8: two postal codes plus a record with a missing postal code that
carries a claim. -/
def df8 : List Record :=
  [⟨none, some ("A"), none, none⟩, ⟨none, some ("B"), none, none⟩,
   ⟨none, none, none, some 5⟩]

/-- frame7: a one-row frame with both monetary columns present and a
claim. -/
def frame7 : Frame := ⟨1, some [some 10], some [some 5], none, none, none, none⟩

/-- frame7after: frame7 once prepare has normalized it: the derived columns
are filled in. -/
def frame7after : Frame :=
  ⟨1, some [some 10], some [some 5], none, some [1], some [some 5],
    some [some 5]⟩

end Defs

section Proofs

variable {α : Type _} {K : Type _} {M : Type _} [AddCommMonoid M]

theorem insertDesc_perm (key : α → ℕ) (a : α) (l : List α) :
    List.Perm (insertDesc key a l) (a :: l) := by
  induction l with
  | nil => exact List.Perm.refl _
  | cons b t ih =>
      by_cases h : key b < key a
      · simp [insertDesc, h]
      · simp only [insertDesc, h, if_false]
        exact (ih.cons b).trans (List.Perm.swap a b t)

theorem sortDesc_perm (key : α → ℕ) (l : List α) :
    List.Perm (sortDesc key l) l := by
  induction l with
  | nil => exact List.Perm.refl _
  | cons a t ih =>
      exact (insertDesc_perm key a (sortDesc key t)).trans (ih.cons a)

theorem mem_sortDesc {key : α → ℕ} {l : List α} {x : α} :
    x ∈ sortDesc key l ↔ x ∈ l :=
  (sortDesc_perm key l).mem_iff

theorem sum_map_zero (l : List α) :
    (l.map (fun _ => (0 : M))).sum = 0 := by
  induction l with
  | nil => rfl
  | cons a t ih => simp [ih]

theorem sum_map_add_distrib (l : List α) (f g : α → M) :
    (l.map (fun a => f a + g a)).sum = (l.map f).sum + (l.map g).sum := by
  induction l with
  | nil => simp
  | cons a t ih =>
      simp only [List.map_cons, List.sum_cons, ih]
      exact add_add_add_comm _ _ _ _

theorem sum_map_comm (ks : List K) (l : List α) (g : K → α → M) :
    (ks.map (fun k => (l.map (g k)).sum)).sum
      = (l.map (fun a => (ks.map (fun k => g k a)).sum)).sum := by
  induction ks with
  | nil => simp [sum_map_zero]
  | cons k t ih =>
      simp only [List.map_cons, List.sum_cons, ih, ← sum_map_add_distrib]

theorem sum_map_congr {l : List α} {f g : α → M}
    (h : ∀ a ∈ l, f a = g a) : (l.map f).sum = (l.map g).sum := by
  induction l with
  | nil => rfl
  | cons a t ih =>
      simp only [List.map_cons, List.sum_cons, h a (List.mem_cons_self a t)]
      rw [ih (fun b hb => h b (List.mem_cons_of_mem a hb))]

theorem sum_if_eq_zero [DecidableEq K] (ks : List K) (x : K) (v : M)
    (hx : x ∉ ks) :
    (ks.map (fun k => if x = k then v else 0)).sum = 0 := by
  induction ks with
  | nil => rfl
  | cons k t ih =>
      have hxk : x ≠ k := fun h => hx (h ▸ List.mem_cons_self k t)
      have hxt : x ∉ t := fun h => hx (List.mem_cons_of_mem k h)
      simp [hxk, ih hxt]

theorem sum_if_eq_single [DecidableEq K] (ks : List K) (hnd : ks.Nodup)
    (x : K) (v : M) :
    (ks.map (fun k => if x = k then v else 0)).sum = if x ∈ ks then v else 0 := by
  induction ks with
  | nil => simp
  | cons k t ih =>
      rcases List.nodup_cons.mp hnd with ⟨hk, ht⟩
      by_cases hxk : x = k
      · subst hxk
        simp [sum_if_eq_zero t x v hk]
      · simp only [List.map_cons, List.sum_cons, if_neg hxk, zero_add, ih ht,
          List.mem_cons]
        by_cases hxt : x ∈ t
        · simp [hxt, hxk]
        · simp [hxt, hxk]

theorem sum_filter_if (p : α → Bool) (f : α → M) (l : List α) :
    ((l.filter p).map f).sum = (l.map (fun a => if p a then f a else 0)).sum := by
  induction l with
  | nil => rfl
  | cons a t ih =>
      by_cases h : p a
      · simp [List.filter_cons, h, ih]
      · simp [List.filter_cons, h, ih]

theorem sum_filter_pos_neg (p : α → Bool) (f : α → M) (l : List α) :
    ((l.filter p).map f).sum + ((l.filter (fun a => !(p a))).map f).sum
      = (l.map f).sum := by
  have hperm := (List.filter_append_perm p l).map f
  have := hperm.sum_eq
  simpa [List.map_append, List.sum_append] using this

/-- sum_over_keylist: summing a quantity group-by-group, over a duplicate-free
list of keys, equals summing it over the records whose (optional) key is in
the list.  This is the partition underlying pandas groupby aggregation. -/
theorem sum_over_keylist [DecidableEq K] (ks : List K) (hnd : ks.Nodup)
    (l : List α) (key : α → Option K) (f : α → M) :
    (ks.map (fun k => ((l.filter (fun a => decide (key a = some k))).map f).sum)).sum
      = ((l.filter (fun a =>
            match key a with
            | some s => decide (s ∈ ks)
            | none => false)).map f).sum := by
  have h1 : ∀ k, ((l.filter (fun a => decide (key a = some k))).map f).sum
      = (l.map (fun a => if key a = some k then f a else 0)).sum := by
    intro k
    rw [sum_filter_if]
    exact sum_map_congr (fun a _ => by by_cases h : key a = some k <;> simp [h])
  calc (ks.map (fun k =>
          ((l.filter (fun a => decide (key a = some k))).map f).sum)).sum
      = (ks.map (fun k =>
          (l.map (fun a => if key a = some k then f a else 0)).sum)).sum := by
        exact congrArg List.sum (List.map_congr_left (fun k _ => h1 k))
    _ = (l.map (fun a =>
          (ks.map (fun k => if key a = some k then f a else 0)).sum)).sum :=
        sum_map_comm ks l _
    _ = (l.map (fun a =>
          if (match key a with
              | some s => decide (s ∈ ks)
              | none => false) then f a else 0)).sum := by
        refine sum_map_congr (fun a _ => ?_)
        cases hk : key a with
        | none => simp [sum_map_zero, hk]
        | some s =>
            have heq : (fun k => if some s = some k then f a else 0)
                = (fun k => if s = k then f a else 0) := by
              funext k; simp
            rw [heq, sum_if_eq_single ks hnd s (f a)]
            by_cases hs : s ∈ ks <;> simp [hs]
    _ = ((l.filter (fun a =>
            match key a with
            | some s => decide (s ∈ ks)
            | none => false)).map f).sum := by
        rw [sum_filter_if]

/-- Total-key variant of the partition lemma: when the key list is
duplicate-free and covers every record, the group-by-group sum is the
dataset-wide sum. -/
theorem sum_over_keylist_tot [DecidableEq K] (ks : List K) (hnd : ks.Nodup)
    (l : List α) (key : α → K) (f : α → M) (hcov : ∀ a ∈ l, key a ∈ ks) :
    (ks.map (fun k => ((l.filter (fun a => decide (key a = k))).map f).sum)).sum
      = (l.map f).sum := by
  have h1 : ∀ k, ((l.filter (fun a => decide (key a = k))).map f).sum
      = (l.map (fun a => if key a = k then f a else 0)).sum := by
    intro k
    rw [sum_filter_if]
    exact sum_map_congr (fun a _ => by by_cases h : key a = k <;> simp [h])
  calc (ks.map (fun k => ((l.filter (fun a => decide (key a = k))).map f).sum)).sum
      = (ks.map (fun k =>
          (l.map (fun a => if key a = k then f a else 0)).sum)).sum := by
        exact congrArg List.sum (List.map_congr_left (fun k _ => h1 k))
    _ = (l.map (fun a =>
          (ks.map (fun k => if key a = k then f a else 0)).sum)).sum :=
        sum_map_comm ks l _
    _ = (l.map f).sum := by
        refine sum_map_congr (fun a ha => ?_)
        rw [sum_if_eq_single ks hnd (key a) (f a), if_pos (hcov a ha)]

theorem length_eq_sum_ones {α : Type _} (l : List α) :
    l.length = (l.map (fun _ => (1 : ℕ))).sum := by
  induction l with
  | nil => rfl
  | cons a t ih =>
      simp only [List.length_cons, List.map_cons, List.sum_cons, ih]
      omega

theorem filterMap_getD_sum {α : Type _} (l : List α) (h : α → Option M) :
    (l.filterMap h).sum = (l.map (fun a => (h a).getD 0)).sum := by
  induction l with
  | nil => rfl
  | cons a t ih => cases hx : h a <;> simp [List.filterMap_cons, hx, ih]

/-- keys_sum_eq_nonmissing: a per-group aggregate summed over all groups is
the aggregate over the records whose segment value is not missing (groupby
drops missing keys, and each remaining record lands in exactly one group). -/
theorem keys_sum_eq_nonmissing (df : List Record) (f : Record → M) :
    ((keys df).map (fun k => ((groupRecs df k).map f).sum)).sum
      = ((df.filter (fun r => !(decide (r.segment = none)))).map f).sum := by
  have hnd : (keys df).Nodup := List.nodup_dedup _
  have h := sum_over_keylist (keys df) hnd df Record.segment f
  unfold groupRecs
  refine Eq.trans ?_ (Eq.trans h ?_)
  · refine congrArg List.sum (List.map_congr_left (fun k _ => ?_))
    refine congrArg List.sum (congrArg (List.map f) (List.filter_congr (fun r _ => ?_)))
    exact decide_eq_decide.mpr Iff.rfl
  · refine congrArg List.sum (congrArg (List.map f) (List.filter_congr (fun r hr => ?_)))
    cases hs : r.segment with
    | none => simp
    | some s =>
        have hmem : s ∈ keys df :=
          List.mem_dedup.mpr (List.mem_filterMap.mpr ⟨r, hr, hs⟩)
        simp [hmem]

/-- keys_sum_add_missing: the per-group sums plus the dropped-missing sum
recover the dataset-wide sum. -/
theorem keys_sum_add_missing (df : List Record) (f : Record → M) :
    ((keys df).map (fun k => ((groupRecs df k).map f).sum)).sum
        + ((df.filter (fun r => decide (r.segment = none))).map f).sum
      = (df.map f).sum := by
  rw [keys_sum_eq_nonmissing]
  have h := sum_filter_pos_neg (fun r => !(decide (r.segment = none))) f df
  have hfe : df.filter (fun r => !(!(decide (r.segment = none))))
      = df.filter (fun r => decide (r.segment = none)) := by
    refine List.filter_congr (fun r _ => ?_)
    simp
  rw [hfe] at h
  exact h

theorem mem_summarize_iff {sqrtF : ℚ → Option ℚ} {sf : ℚ → ℚ}
    {mw : List ℚ → List ℚ → Option (ℚ × ℚ)}
    {hasPID : Bool} {df : List Record} {top_n : Option ℕ} {r : SRow} :
    r ∈ summarize_group sqrtF sf mw hasPID df top_n ↔
      ∃ g, g ∈ selectKeys hasPID df top_n ∧ r = mkRow sqrtF sf mw hasPID df g := by
  unfold summarize_group
  rw [mem_sortDesc, List.mem_map]
  constructor
  · rintro ⟨g, hg, hr⟩
    exact ⟨g, hg, hr.symm⟩
  · rintro ⟨g, hg, hr⟩
    exact ⟨g, hg, hr.symm⟩

theorem selectKeys_subset {hasPID : Bool} {df : List Record}
    {top_n : Option ℕ} {g : String} (hg : g ∈ selectKeys hasPID df top_n) :
    g ∈ keys df := by
  cases top_n with
  | none => exact hg
  | some t =>
      simp only [selectKeys] at hg
      by_cases ht : t = 0
      · rw [if_pos ht] at hg
        exact hg
      · rw [if_neg ht] at hg
        exact mem_sortDesc.mp (List.take_subset t _ hg)

/-! ## Theorems for the claims -/

/-- Normal form of two_prop_ztest away from the zero-denominator guards:
the standard error handed to the caller is np.sqrt applied to seSq, and the
z statistic is built from the pHat proportions. -/
theorem two_prop_ztest_eq (sqrtF : ℚ → Option ℚ) (sf : ℚ → ℚ)
    (k1 n1 k2 n2 : ℚ) (h1 : n1 ≠ 0) (h2 : n2 ≠ 0) :
    two_prop_ztest sqrtF sf k1 n1 k2 n2 =
      match sqrtF (seSq k1 n1 k2 n2) with
      | none => none
      | some se =>
          if se = 0 then none
          else some ((pHat k1 n1 - pHat k2 n2) / se,
            2 * sf |(pHat k1 n1 - pHat k2 n2) / se|) := by
  unfold two_prop_ztest seSq pHat
  simp [h1, h2]

theorem two_prop_ztest_zero_left (sqrtF : ℚ → Option ℚ) (sf : ℚ → ℚ)
    (k1 k2 n2 : ℚ) :
    two_prop_ztest sqrtF sf k1 0 k2 n2 = none := by
  unfold two_prop_ztest
  simp

theorem two_prop_ztest_zero_right (sqrtF : ℚ → Option ℚ) (sf : ℚ → ℚ)
    (k1 n1 k2 : ℚ) :
    two_prop_ztest sqrtF sf k1 n1 k2 0 = none := by
  unfold two_prop_ztest
  simp

/-- C3: the two-proportion z-test is symmetric: for every argument list and
every instantiation of the external square-root and survival-function
collaborators, swapping (k1, n1) with (k2, n2) negates the z statistic and
keeps the p-value; in particular the swapped call is applicable exactly when
the original one is. -/
theorem claim3_two_prop_ztest_symmetric (sqrtF : ℚ → Option ℚ) (sf : ℚ → ℚ)
    (k1 n1 k2 n2 : ℚ) :
    two_prop_ztest sqrtF sf k2 n2 k1 n1
      = (two_prop_ztest sqrtF sf k1 n1 k2 n2).map (fun r => (-r.1, r.2)) := by
  by_cases h1 : n1 = 0
  · subst h1
    rw [two_prop_ztest_zero_right, two_prop_ztest_zero_left]
    rfl
  · by_cases h2 : n2 = 0
    · subst h2
      rw [two_prop_ztest_zero_left, two_prop_ztest_zero_right]
      rfl
    · rw [two_prop_ztest_eq sqrtF sf k2 n2 k1 n1 h2 h1,
        two_prop_ztest_eq sqrtF sf k1 n1 k2 n2 h1 h2]
      have harg : seSq k2 n2 k1 n1 = seSq k1 n1 k2 n2 := by
        unfold seSq
        rw [add_comm n2 n1, add_comm k2 k1, add_comm (1 / n2) (1 / n1)]
      rw [harg]
      cases hse : sqrtF (seSq k1 n1 k2 n2) with
      | none => rfl
      | some se =>
          by_cases hz : se = 0
          · simp [hz]
          · have hneg : (pHat k2 n2 - pHat k1 n1) / se
                = -((pHat k1 n1 - pHat k2 n2) / se) := by ring
            simp only [hz, if_neg hz, Option.map_some]
            rw [hneg, abs_neg]
            simp

/-- C4: two_prop_ztest returns the inapplicable marker exactly when n1 = 0,
n2 = 0, or the squared pooled standard error is nonpositive (np.sqrt is NaN
on a negative argument and zero on a zero one); otherwise it returns the z
statistic (pHat difference over the standard error) together with the
two-sided p-value 2 * sf |z| from the survival function. -/
theorem claim4_two_prop_ztest_applicability (sqrtF : ℚ → Option ℚ)
    (sf : ℚ → ℚ) (k1 n1 k2 n2 : ℚ)
    (hnan : ∀ x, sqrtF x = none ↔ x < 0)
    (hzero : ∀ x y, sqrtF x = some y → (y = 0 ↔ x = 0)) :
    (two_prop_ztest sqrtF sf k1 n1 k2 n2 = none ↔
      n1 = 0 ∨ n2 = 0 ∨ seSq k1 n1 k2 n2 ≤ 0) ∧
    (∀ se, sqrtF (seSq k1 n1 k2 n2) = some se → se ≠ 0 →
      n1 ≠ 0 → n2 ≠ 0 →
      two_prop_ztest sqrtF sf k1 n1 k2 n2 =
        some ((pHat k1 n1 - pHat k2 n2) / se,
          2 * sf |(pHat k1 n1 - pHat k2 n2) / se|)) := by
  constructor
  · by_cases h1 : n1 = 0
    · subst h1
      rw [two_prop_ztest_zero_left]
      simp
    · by_cases h2 : n2 = 0
      · subst h2
        rw [two_prop_ztest_zero_right]
        simp
      · rw [two_prop_ztest_eq sqrtF sf k1 n1 k2 n2 h1 h2]
        cases hse : sqrtF (seSq k1 n1 k2 n2) with
        | none =>
            have hneg : seSq k1 n1 k2 n2 < 0 := (hnan _).mp hse
            simp [h1, h2, le_of_lt hneg]
        | some se =>
            by_cases hz : se = 0
            · have h0 : seSq k1 n1 k2 n2 = 0 := (hzero _ _ hse).mp hz
              simp [hz, h1, h2, h0]
            · have hne0 : seSq k1 n1 k2 n2 ≠ 0 :=
                fun h => hz ((hzero _ _ hse).mpr h)
              have hnneg : ¬ seSq k1 n1 k2 n2 < 0 := by
                intro hlt
                rw [(hnan _).mpr hlt] at hse
                exact Option.noConfusion hse
              have : ¬ seSq k1 n1 k2 n2 ≤ 0 := by
                intro hle
                exact hne0 (le_antisymm hle (not_lt.mp hnneg))
              simp [hz, h1, h2, this]
  · intro se hse hz h1 h2
    rw [two_prop_ztest_eq sqrtF sf k1 n1 k2 n2 h1 h2, hse]
    simp [hz]

theorem summarize_rows_none {M : Type _} [AddCommMonoid M]
    (sqrtF : ℚ → Option ℚ) (sf : ℚ → ℚ)
    (mw : List ℚ → List ℚ → Option (ℚ × ℚ))
    (hasPID : Bool) (df : List Record) (f0 : SRow → M) :
    ((summarize_group sqrtF sf mw hasPID df none).map f0).sum
      = ((keys df).map (fun k => f0 (mkRow sqrtF sf mw hasPID df k))).sum := by
  unfold summarize_group selectKeys
  rw [((sortDesc_perm SRow.policies _).map f0).sum_eq, List.map_map]
  rfl

/-- C1 amended: without a top_n cap, the premium, claims and claim-count
sums over the emitted Segment Summaries plus the same sums over the records
with missing segment value equal the dataset-wide sums.  (With a cap the
groups outside the cap are not emitted, so the equation fails; see the
counterexample.) -/
theorem claim1_conservation_no_cap (sqrtF : ℚ → Option ℚ) (sf : ℚ → ℚ)
    (mw : List ℚ → List ℚ → Option (ℚ × ℚ))
    (hasPID : Bool) (df : List Record) :
    ((summarize_group sqrtF sf mw hasPID df none).map SRow.total_premium).sum
        + gPremium (missingRecs df) = dfPremiumSum df
    ∧ ((summarize_group sqrtF sf mw hasPID df none).map SRow.total_claims).sum
        + gClaims (missingRecs df) = dfClaimsSum df
    ∧ ((summarize_group sqrtF sf mw hasPID df none).map SRow.claims_count).sum
        + gOcc (missingRecs df) = dfOccSum df := by
  refine ⟨?_, ?_, ?_⟩
  · rw [summarize_rows_none sqrtF sf mw hasPID df SRow.total_premium]
    simp only [mkRow, gPremium, missingRecs, dfPremiumSum, filterMap_getD_sum]
    exact keys_sum_add_missing df (fun r => (r.totalPremium).getD 0)
  · rw [summarize_rows_none sqrtF sf mw hasPID df SRow.total_claims]
    simp only [mkRow, gClaims, missingRecs, dfClaimsSum, filterMap_getD_sum]
    exact keys_sum_add_missing df (fun r => (r.totalClaims).getD 0)
  · rw [summarize_rows_none sqrtF sf mw hasPID df SRow.claims_count]
    simp only [mkRow, gOcc, missingRecs, dfOccSum]
    exact keys_sum_add_missing df claimOccurred

/-- C1 counterexample: with a top_n = 1 cap only one of the two groups of
df1c is emitted, so the emitted premium total plus the dropped-missing
premium total (here zero) differs from the dataset-wide premium sum: the
conservation property does not extend to capped calls. -/
theorem claim1_counterexample :
    ((summarize_group sq0 sf0 mw0 false df1c (some 1)).map SRow.total_premium).sum
        + gPremium (missingRecs df1c) ≠ dfPremiumSum df1c := by
  simp +decide [summarize_group, selectKeys, keys, df1c, sortDesc, insertDesc,
    mkRow, groupRecs, policiesOf, gPremium, gClaims, gOcc, missingRecs,
    dfPremiumSum, sq0, sf0, mw0, restN, restK, overallPolicies, overallOcc,
    sevSample, sevRest, two_prop_ztest, claimOccurred, claimSeverity]

/-- C2 amended: every emitted row has a missing loss ratio whenever its
premium total is zero; and when the PolicyID column is absent (policies is
the plain row count) the claim frequency is always defined and within
[0, 1].  (With PolicyID present the frequency can exceed 1, because several
transactions of one policy can each carry a claim; see the
counterexample.) -/
theorem claim2_freq_loss_bounds (sqrtF : ℚ → Option ℚ) (sf : ℚ → ℚ)
    (mw : List ℚ → List ℚ → Option (ℚ × ℚ))
    (hasPID : Bool) (df : List Record) (top_n : Option ℕ) (r : SRow)
    (hr : r ∈ summarize_group sqrtF sf mw hasPID df top_n) :
    (r.total_premium = 0 → r.loss_ratio = none) ∧
    (hasPID = false → ∀ q, r.claim_freq = some q → 0 ≤ q ∧ q ≤ 1) := by
  obtain ⟨g, hg, hre⟩ := mem_summarize_iff.mp hr
  subst hre
  constructor
  · intro htp
    simp only [mkRow] at htp ⊢
    rw [if_pos htp]
  · rintro rfl q hq
    simp only [mkRow, policiesOf, if_neg Bool.false_ne_true] at hq
    by_cases hn : (groupRecs df g).length = 0
    · rw [if_pos hn] at hq
      exact Option.noConfusion hq
    · rw [if_neg hn] at hq
      have hq2 : ((gOcc (groupRecs df g) : ℚ)) / ((groupRecs df g).length : ℚ) = q :=
        Option.some.inj hq
      have hk : gOcc (groupRecs df g) ≤ (groupRecs df g).length := by
        have h1 := List.sum_le_card_nsmul ((groupRecs df g).map claimOccurred) 1
          (by
            intro x hx
            rcases List.mem_map.mp hx with ⟨r2, _, rfl⟩
            unfold claimOccurred
            split <;> omega)
        simpa [gOcc, smul_eq_mul] using h1
      have hpos : (0 : ℚ) < ((groupRecs df g).length : ℚ) := by
        exact_mod_cast Nat.pos_of_ne_zero hn
      constructor
      · rw [← hq2]
        exact div_nonneg (Nat.cast_nonneg _) (Nat.cast_nonneg _)
      · rw [← hq2]
        exact (div_le_one hpos).mpr (by exact_mod_cast hk)

/-- C2 counterexample: with the PolicyID column present, group A of df2c has
policies = 1 (one distinct PolicyID) but claims_count = 2, so the emitted
claim frequency is 2, outside [0, 1]. -/
theorem claim2_counterexample :
    ¬ ∀ r ∈ summarize_group sq0 sf0 mw0 true df2c none,
        ∀ q, r.claim_freq = some q → 0 ≤ q ∧ q ≤ 1 := by
  intro h
  have hmem : mkRow sq0 sf0 mw0 true df2c ("A")
      ∈ summarize_group sq0 sf0 mw0 true df2c none := by
    simp +decide [summarize_group, selectKeys, keys, df2c, sortDesc, insertDesc]
  have hfreq : (mkRow sq0 sf0 mw0 true df2c ("A")).claim_freq = some 2 := by
    simp +decide [mkRow, df2c, policiesOf, groupRecs, gOcc, claimOccurred]
  have h2 := h _ hmem 2 hfreq
  exact absurd h2.2 (by norm_num)

/-- Closed witness for the bounds theorem at the one-group frame dfW. -/
theorem claim2_witness :
    ((mkRow sq0 sf0 mw0 false dfW ("A")).total_premium = 0 →
        (mkRow sq0 sf0 mw0 false dfW ("A")).loss_ratio = none) ∧
    (false = false → ∀ q,
        (mkRow sq0 sf0 mw0 false dfW ("A")).claim_freq = some q →
        0 ≤ q ∧ q ≤ 1) :=
  claim2_freq_loss_bounds sq0 sf0 mw0 false dfW none _ (by
    simp +decide [summarize_group, selectKeys, keys, dfW, sortDesc, insertDesc])

/-- C5: for every emitted row, the Mann-Whitney fields hold the result of
the external routine exactly when both the group severity sample and the
complement severity sample have at least 10 observations, and are the
inapplicable marker otherwise; the quantification over every mw collaborator
shows the routine is not consulted below the threshold. -/
theorem claim5_mw_gate (sqrtF : ℚ → Option ℚ) (sf : ℚ → ℚ)
    (mw : List ℚ → List ℚ → Option (ℚ × ℚ))
    (hasPID : Bool) (df : List Record) (top_n : Option ℕ) (r : SRow)
    (hr : r ∈ summarize_group sqrtF sf mw hasPID df top_n) :
    r.mw_sev =
      if 10 ≤ (sevSample df r.segv).length ∧ 10 ≤ (sevRest df r.segv).length
      then mw (sevSample df r.segv) (sevRest df r.segv)
      else none := by
  obtain ⟨g, hg, hre⟩ := mem_summarize_iff.mp hr
  subst hre
  rfl

/-- Closed witness for the Mann-Whitney gate at dfW: the singleton severity
sample is below the threshold, so the fields are inapplicable. -/
theorem claim5_witness :
    (mkRow sq0 sf0 mw0 false dfW ("A")).mw_sev =
      if 10 ≤ (sevSample dfW (mkRow sq0 sf0 mw0 false dfW ("A")).segv).length ∧
          10 ≤ (sevRest dfW (mkRow sq0 sf0 mw0 false dfW ("A")).segv).length
      then mw0 (sevSample dfW (mkRow sq0 sf0 mw0 false dfW ("A")).segv)
        (sevRest dfW (mkRow sq0 sf0 mw0 false dfW ("A")).segv)
      else none :=
  claim5_mw_gate sq0 sf0 mw0 false dfW none _ (by
    simp +decide [summarize_group, selectKeys, keys, dfW, sortDesc, insertDesc])

/-- C10: a top_n cap only filters which rows are emitted: every row of a
capped call is literally a row of the uncapped call (all its statistics,
z-test and Mann-Whitney fields included), because the vs-rest baselines and
complement samples are computed from the full grouped dataset before the cap
is applied. -/
theorem claim10_cap_only_filters (sqrtF : ℚ → Option ℚ) (sf : ℚ → ℚ)
    (mw : List ℚ → List ℚ → Option (ℚ × ℚ))
    (hasPID : Bool) (df : List Record) (t : ℕ) (r : SRow)
    (hr : r ∈ summarize_group sqrtF sf mw hasPID df (some t)) :
    r ∈ summarize_group sqrtF sf mw hasPID df none := by
  obtain ⟨g, hg, hre⟩ := mem_summarize_iff.mp hr
  exact mem_summarize_iff.mpr ⟨g, selectKeys_subset hg, hre⟩

/-- Closed witness for the cap theorem: the row kept by the top_n = 1 call
on df1c is also a row of the uncapped call. -/
theorem claim10_witness :
    mkRow sq0 sf0 mw0 false df1c ("B")
      ∈ summarize_group sq0 sf0 mw0 false df1c none :=
  claim10_cap_only_filters sq0 sf0 mw0 false df1c 1 _ (by
    simp +decide [summarize_group, selectKeys, keys, df1c, sortDesc,
      insertDesc, policiesOf, groupRecs])

/-- C9 amended: severity and frequency rest baselines are exact complements,
but of two different universes.  The severity rest sample together with the
group sample is a permutation of the severity sample of the whole dataset
(missing-segment records included).  The frequency baselines rest_k and
rest_n complement the group within the records that carry a non-missing
segment value: group plus rest recovers exactly the non-missing-segment
totals, so no third group is ever involved, but missing-segment records are
excluded from the frequency baselines (see the counterexample). -/
theorem claim9_rest_decomposition (df : List Record) (g : String) :
    ((gOcc (groupRecs df g) : ℚ) + restK df g
      = (((df.filter (fun r => !(decide (r.segment = none)))).map
          claimOccurred).sum : ℕ))
    ∧ List.Perm (sevSample df g ++ sevRest df g) (df.filterMap claimSeverity)
    ∧ ((policiesOf false (groupRecs df g) : ℚ) + restN false df g
      = ((df.filter (fun r => !(decide (r.segment = none)))).length : ℕ)) := by
  refine ⟨?_, ?_, ?_⟩
  · have hO : overallOcc df
        = ((df.filter (fun r => !(decide (r.segment = none)))).map
            claimOccurred).sum :=
      keys_sum_eq_nonmissing df claimOccurred
    unfold restK
    rw [← hO]
    ring
  · have hp := List.filter_append_perm
      (fun r => decide (r.segment = some g)) df
    have h1 : sevSample df g ++ sevRest df g
        = ((df.filter (fun r => decide (r.segment = some g)))
            ++ (df.filter (fun r =>
              !(decide (r.segment = some g))))).filterMap claimSeverity := by
      rw [List.filterMap_append]
      rfl
    rw [h1]
    exact hp.filterMap claimSeverity
  · have hO : overallPolicies false df
        = (df.filter (fun r => !(decide (r.segment = none)))).length := by
      unfold overallPolicies policiesOf
      simp only [if_neg Bool.false_ne_true, length_eq_sum_ones]
      exact keys_sum_eq_nonmissing df (fun _ => (1 : ℕ))
    unfold restN
    rw [← hO]
    ring

/-- C9 counterexample: on df9 the frequency baseline rest_k of group A is 0,
but the claim count of the true dataset complement of A (records B and the
missing-segment record) is 1: rest_k is not the dataset total minus the
group's contribution, because the missing-segment claim record is excluded
from it. -/
theorem claim9_counterexample :
    restK df9 ("A")
      ≠ ((((df9.filter (fun r => !(decide (r.segment = some ("A"))))).map
          claimOccurred).sum : ℕ) : ℚ) := by
  simp +decide [restK, df9, overallOcc, keys, groupRecs, gOcc, claimOccurred]

/-- C6: the Kruskal-Wallis wrapper returns the inapplicable marker exactly
when fewer than 2 groups survive the minimum-size threshold (regardless of
how many groups sit below it); otherwise it hands exactly the qualifying
samples to the external kruskal routine; the labels are the qualifying
groups, and a group qualifies precisely when its dropna sample has at least
min_group_size values. -/
theorem claim6_kw_gate (kruskal : List (List ℚ) → ℚ × ℚ) (df : List Record)
    (val : Record → Option ℚ) (m : ℕ) :
    ((kw_test_numeric kruskal df val m).1 = none ↔
        (kwQualifying df val m).length < 2)
    ∧ (2 ≤ (kwQualifying df val m).length →
        (kw_test_numeric kruskal df val m).1
          = some (kruskal ((kwQualifying df val m).map Prod.snd)))
    ∧ ((kw_test_numeric kruskal df val m).2
        = (kwQualifying df val m).map Prod.fst)
    ∧ (∀ k s, (k, s) ∈ kwQualifying df val m ↔
        (k ∈ keys df ∧ s = kwSample df val k ∧
          m ≤ (kwSample df val k).length)) := by
  refine ⟨?_, ?_, ?_, ?_⟩
  · unfold kw_test_numeric
    by_cases h : (kwQualifying df val m).length < 2
    · simp [h]
    · simp [h]
  · intro h2
    unfold kw_test_numeric
    rw [if_neg (by omega)]
  · unfold kw_test_numeric
    by_cases h : (kwQualifying df val m).length < 2
    · simp [h]
    · simp [h]
  · intro k s
    unfold kwQualifying
    rw [List.mem_filterMap]
    constructor
    · rintro ⟨a, ha, hfa⟩
      by_cases hm : m ≤ (kwSample df val a).length
      · rw [if_pos hm] at hfa
        have hpair := Option.some.inj hfa
        have ha1 : a = k := congrArg Prod.fst hpair
        have ha2 : kwSample df val a = s := congrArg Prod.snd hpair
        subst ha1
        exact ⟨ha, ha2.symm, hm⟩
      · rw [if_neg hm] at hfa
        exact Option.noConfusion hfa
    · rintro ⟨hk, hs, hm⟩
      refine ⟨k, hk, ?_⟩
      rw [if_pos hm, hs]

/-- C8 amended: the contingency table built by chi2_test_frequency covers
every record of the record set it is given exactly once, with a missing
segment value coerced into the MISSING row rather than dropped.  (The
Province and Gender tests hand it the full dataset; the PostalCode test
hands it the subset restricted to the ten most frequent postal codes, so its
table is not built across the entire dataset — see the counterexample.) -/
theorem claim8_table_counts (df : List Record) :
    ((contTable df).map (fun row => row.2.1 + row.2.2)).sum = df.length
    ∧ (∀ r ∈ df, r.segment = none →
        ∃ p, (("MISSING"), p) ∈ contTable df) := by
  constructor
  · unfold contTable
    rw [List.map_map]
    have hterm : ∀ k : String,
        ((df.filter (fun r =>
            decide ((r.segment).getD ("MISSING") = k))).filter
          (fun r => decide (claimOccurred r = 0))).length
        + ((df.filter (fun r =>
            decide ((r.segment).getD ("MISSING") = k))).filter
          (fun r => !(decide (claimOccurred r = 0)))).length
        = (df.filter (fun r =>
            decide ((r.segment).getD ("MISSING") = k))).length := by
      intro k
      have hp := List.filter_append_perm
        (fun r => decide (claimOccurred r = 0))
        (df.filter (fun r => decide ((r.segment).getD ("MISSING") = k)))
      have := hp.length_eq
      simpa [List.length_append] using this
    refine Eq.trans (congrArg List.sum
      (List.map_congr_left (fun k _ => hterm k))) ?_
    have hcov : ∀ r ∈ df, (r.segment).getD ("MISSING") ∈ ctKeys df :=
      fun r hr => List.mem_dedup.mpr (List.mem_map.mpr ⟨r, hr, rfl⟩)
    have h2 := sum_over_keylist_tot (ctKeys df) (List.nodup_dedup _) df
      (fun r => (r.segment).getD ("MISSING")) (fun _ => (1 : ℕ)) hcov
    rw [length_eq_sum_ones df]
    rw [← h2]
    refine congrArg List.sum (List.map_congr_left (fun k _ => ?_))
    exact length_eq_sum_ones _
  · intro r hr hseg
    have hmem : ("MISSING") ∈ ctKeys df :=
      List.mem_dedup.mpr (List.mem_map.mpr ⟨r, hr, by rw [hseg]; rfl⟩)
    exact ⟨_, List.mem_map.mpr ⟨("MISSING"), hmem, rfl⟩⟩

/-- C8 counterexample: the PostalCode test restricts the dataset to the ten
most frequent postal codes before building the table; on df8 that
restriction drops the missing-postal-code record, so the table of the
PostalCode test differs from the contingency table across the entire
dataset (which has a MISSING row). -/
theorem claim8_counterexample :
    contTable (postalSubset df8) ≠ contTable df8 := by
  simp +decide [contTable, ctKeys, postalSubset, topZips, value_counts, keys,
    df8, sortDesc, insertDesc, groupRecs, claimOccurred]

/-- C7 amended: the Metric Normalizer does have a side effect: it normalizes
the frame in place, so after a successful run the caller-owned frame state
coincides with the returned normalized frame (they are the same object). -/
theorem claim7_prepare_mutates_in_place (coe : Option ℚ → Option ℚ)
    (df : Frame) (res : Frame × Frame)
    (hok : prepare coe df = Except.ok res) :
    res.1 = res.2 := by
  cases htc : df.totalClaims with
  | none =>
      simp [prepare, htc] at hok
  | some tc =>
      simp only [prepare, htc, Option.map_some] at hok
      have := Except.ok.inj hok
      rw [← this]

/-- C7 counterexample: running prepare on frame7 leaves the caller-owned
frame changed (the derived columns have been written into it), refuting the
no-mutation claim. -/
theorem claim7_counterexample :
    callerFrameAfter (prepare (fun c => c) frame7) ≠ frame7 := by
  simp +decide [prepare, callerFrameAfter, frame7]

/-- Closed witness for the in-place theorem: prepare on frame7 returns the
pair (frame7after, frame7after), whose components coincide. -/
theorem claim7_witness :
    ((frame7after, frame7after) : Frame × Frame).1
      = ((frame7after, frame7after) : Frame × Frame).2 :=
  claim7_prepare_mutates_in_place (fun c => c) frame7 _ (by
    simp +decide [prepare, frame7, frame7after]
    norm_num)

/-- Closed witness for the applicability theorem: at k1 = 1, n1 = 2, k2 = 1,
n2 = 2 with the concrete sqrtQ collaborator both hypotheses hold and the
theorem applies. -/
theorem claim4_witness :
    (two_prop_ztest sqrtQ sf0 1 2 1 2 = none ↔
      (2 : ℚ) = 0 ∨ (2 : ℚ) = 0 ∨ seSq 1 2 1 2 ≤ 0) ∧
    (∀ se, sqrtQ (seSq 1 2 1 2) = some se → se ≠ 0 →
      (2 : ℚ) ≠ 0 → (2 : ℚ) ≠ 0 →
      two_prop_ztest sqrtQ sf0 1 2 1 2 =
        some ((pHat 1 2 - pHat 1 2) / se,
          2 * sf0 |(pHat 1 2 - pHat 1 2) / se|)) :=
  claim4_two_prop_ztest_applicability sqrtQ sf0 1 2 1 2
    (fun x => by
      unfold sqrtQ
      by_cases h : x < 0
      · simp [h]
      · simp [h])
    (fun x y hxy => by
      unfold sqrtQ at hxy
      by_cases h : x < 0
      · rw [if_pos h] at hxy
        exact Option.noConfusion hxy
      · rw [if_neg h] at hxy
        have : x = y := Option.some.inj hxy
        subst this
        exact Iff.rfl)

end Proofs
